import Mathlib

set_option maxRecDepth 10000

/-!
Shallow embedding of the wukong-pro core: the paper-trading ledger and
matching loop (src/unnamed/part_000) and the indicator / signal engines of
both app variants (src/unnamed/part_000 = V12, src/src/App.tsx = V13).
JavaScript numbers are modelled as exact rationals; JS `Record` objects are
modelled as association lists.
-/

namespace Wukong

/-- Order / trade side, the `type: 'BUY' | 'SELL'` field of the source. -/
inductive Side where
  | BUY
  | SELL
deriving DecidableEq, Repr

/-- Embeds `PendingOrder` of part_000: `{id, time, price, shares, type}`. -/
structure PendingOrder where
  id : String
  time : String
  price : ℚ
  shares : ℚ
  type : Side
deriving DecidableEq, Repr

/-- Embeds `SimTrade` of part_000: `{id, time, price, shares, type, amount}`. -/
structure SimTrade where
  id : String
  time : String
  price : ℚ
  shares : ℚ
  type : Side
  amount : ℚ
deriving DecidableEq, Repr

/-- Embeds `SimPosition` of part_000. -/
structure SimPosition where
  holding : ℚ
  avgCost : ℚ
  realizedPnl : ℚ
  trades : List SimTrade
  pending : List PendingOrder
deriving DecidableEq, Repr

/-- Embeds `GlobalSimState` of part_000; the JS `Record<string, SimPosition>`
is modelled as an association list from symbol code to position. -/
structure GlobalSimState where
  cash : ℚ
  initialCapital : ℚ
  positions : List (String × SimPosition)
deriving DecidableEq, Repr

/-- Lookup of `prev.positions[code]`. -/
def lookupPos (ps : List (String × SimPosition)) (code : String) : Option SimPosition :=
  (ps.find? (fun pr => pr.1 == code)).map (fun pr => pr.2)

/-- Embeds the JS object-spread update `\x7b...prev.positions, [code]: pos\x7d`:
the entry for `code` is replaced (here: moved to the front), all other
entries are kept. -/
def setPos (ps : List (String × SimPosition)) (code : String) (pos : SimPosition) :
    List (String × SimPosition) :=
  (code, pos) :: ps.filter (fun pr => !(pr.1 == code))

/-- Embeds `delete nextPositions[code]` of `clearStock`. -/
def delPos (ps : List (String × SimPosition)) (code : String) : List (String × SimPosition) :=
  ps.filter (fun pr => !(pr.1 == code))

/-- The default account `\x7bholding: 0, avgCost: 0, realizedPnl: 0, trades: [], pending: []\x7d`
used when `prev.positions[selectedCode]` is absent. -/
def emptyPosition : SimPosition := ⟨0, 0, 0, [], []⟩

/-- Embeds `handleTradeAction` (part_000 lines 937-1003): validates
`price > 0 ∧ vol > 0`; BUY reserves `price*vol` from cash, SELL reserves
`vol` shares from the holding; on success the order is appended to the
pending list, on any failed check the state is returned unchanged. -/
def handleTradeAction (st : GlobalSimState) (code : String) (side : Side)
    (price vol : ℚ) (oid timeStr : String) : GlobalSimState :=
  if price ≤ 0 ∨ vol ≤ 0 then st
  else
    let account := (lookupPos st.positions code).getD emptyPosition
    let newOrder : PendingOrder := ⟨oid, timeStr, price, vol, side⟩
    match side with
    | Side.BUY =>
      if st.cash < price * vol then st
      else
        { st with
          cash := st.cash - price * vol,
          positions := setPos st.positions code
            { account with pending := account.pending ++ [newOrder] } }
    | Side.SELL =>
      if account.holding < vol then st
      else
        { st with
          positions := setPos st.positions code
            { account with holding := account.holding - vol,
                           pending := account.pending ++ [newOrder] } }

/-- The trade record `\x7bid: order.id + '_exec', time, price: order.price, shares,
type, amount: order.price * order.shares\x7d` appended on a fill. -/
def tradeOf (o : PendingOrder) (timeStr : String) : SimTrade :=
  ⟨o.id ++ "_exec", timeStr, o.price, o.shares, o.type, o.price * o.shares⟩

/-- The mutable accumulator threaded through the matching sweep of part_000
lines 1014-1058 (`newCash`, `newHolding`, `newAvgCost`, `newRealizedPnl`,
`newTrades`, `remainingOrders`, `hasChanges`). -/
structure MatchAcc where
  cash : ℚ
  holding : ℚ
  avgCost : ℚ
  realizedPnl : ℚ
  trades : List SimTrade
  remaining : List PendingOrder
  changed : Bool
deriving DecidableEq, Repr

/-- Embeds the body of the `remainingOrders = newPending.filter(order => ...)`
sweep (part_000 lines 1027-1058) for one resting order: a BUY fills iff
`currentPrice ≤ order.price`, a SELL fills iff `currentPrice ≥ order.price`;
a filled order is dropped from the remaining list and its trade appended,
an unfilled order is kept. -/
def stepOrder (currentPrice : ℚ) (timeStr : String) (acc : MatchAcc) (o : PendingOrder) :
    MatchAcc :=
  if o.type = Side.BUY ∧ currentPrice ≤ o.price then
    let costBasis := acc.holding * acc.avgCost + o.price * o.shares
    let newHolding := acc.holding + o.shares
    { acc with
      holding := newHolding,
      avgCost := if 0 < newHolding then costBasis / newHolding else 0,
      trades := acc.trades ++ [tradeOf o timeStr],
      changed := true }
  else if o.type = Side.SELL ∧ o.price ≤ currentPrice then
    { acc with
      cash := acc.cash + o.price * o.shares,
      realizedPnl := acc.realizedPnl + (o.price - acc.avgCost) * o.shares,
      trades := acc.trades ++ [tradeOf o timeStr],
      changed := true }
  else
    { acc with remaining := acc.remaining ++ [o] }

/-- Embeds the matching useEffect (part_000 lines 1006-1079): on a new price
for the active symbol, sweep the pending orders in insertion order and
commit the accumulated cash / holding / avgCost / realizedPnl / trades. -/
def matchTick (st : GlobalSimState) (code : String) (currentPrice : ℚ)
    (timeStr : String) : GlobalSimState :=
  match lookupPos st.positions code with
  | none => st
  | some account =>
    if account.pending.isEmpty then st
    else
      let acc0 : MatchAcc :=
        ⟨st.cash, account.holding, account.avgCost, account.realizedPnl,
         account.trades, [], false⟩
      let accF := account.pending.foldl (stepOrder currentPrice timeStr) acc0
      if accF.changed = false then st
      else
        { st with
          cash := accF.cash,
          positions := setPos st.positions code
            { account with
              holding := accF.holding,
              avgCost := accF.avgCost,
              realizedPnl := accF.realizedPnl,
              trades := accF.trades,
              pending := accF.remaining } }

/-- Embeds `cancelOrder` (part_000 lines 1081-1113): find the order by id,
refund `price*shares` to cash for a BUY or `shares` to the holding for a
SELL, and remove every pending order carrying that id. -/
def cancelOrder (st : GlobalSimState) (code : String) (orderId : String) : GlobalSimState :=
  match lookupPos st.positions code with
  | none => st
  | some account =>
    match account.pending.find? (fun o => o.id == orderId) with
    | none => st
    | some orderToCancel =>
      let newPending := account.pending.filter (fun o => !(o.id == orderId))
      if orderToCancel.type = Side.BUY then
        { st with
          cash := st.cash + orderToCancel.price * orderToCancel.shares,
          positions := setPos st.positions code { account with pending := newPending } }
      else
        { st with
          positions := setPos st.positions code
            { account with holding := account.holding + orderToCancel.shares,
                           pending := newPending } }

/-- Embeds `updateCapital` (part_000 lines 1115-1125): a positive amount sets
both `initialCapital` and `cash` to it; otherwise nothing changes. -/
def updateCapital (st : GlobalSimState) (newCap : ℚ) : GlobalSimState :=
  if 0 < newCap then { st with initialCapital := newCap, cash := newCap } else st

/-- Embeds `deleteTrade` (part_000 lines 1127-1143): removes a trade record
from the history of the selected symbol, touching nothing else. -/
def deleteTrade (st : GlobalSimState) (code : String) (tradeId : String) : GlobalSimState :=
  match lookupPos st.positions code with
  | none => st
  | some currentPos =>
    { st with
      positions := setPos st.positions code
        { currentPos with trades := currentPos.trades.filter (fun t => !(t.id == tradeId)) } }

/-- Embeds `resetAccount` (part_000 lines 1145-1149): the new state is the
hardcoded `\x7bcash: 1000000, initialCapital: 1000000, positions: \x7b\x7d\x7d`. -/
def resetAccount (_st : GlobalSimState) : GlobalSimState := ⟨1000000, 1000000, []⟩

/-- The cash reserved by pending BUY orders, as summed by `clearStock`:
`pending.forEach(o => \x7bif (o.type === 'BUY') refund += o.price * o.shares\x7d)`. -/
def pendingBuyReserved (pending : List PendingOrder) : ℚ :=
  pending.foldl (fun acc o => if o.type = Side.BUY then acc + o.price * o.shares else acc) 0

/-- Embeds `clearStock` (part_000 lines 1151-1175): refunds
`holding * avgCost` plus the BUY-side reserved cash, then deletes the
position; SELL-side reserved shares are not refunded. -/
def clearStock (st : GlobalSimState) (code : String) : GlobalSimState :=
  match lookupPos st.positions code with
  | none => st
  | some currentPos =>
    let refund := currentPos.holding * currentPos.avgCost + pendingBuyReserved currentPos.pending
    { st with cash := st.cash + refund, positions := delPos st.positions code }

/-- The holding recorded for `code` (0 when the symbol has no position),
used to state ledger properties. -/
def holdingOf (st : GlobalSimState) (code : String) : ℚ :=
  ((lookupPos st.positions code).getD emptyPosition).holding

/-! ## Indicator library and signal engines -/

/-- Embeds `KLinePoint`: `\x7bdate, open, close, high, low, vol\x7d` (the source
field `open` is rendered `openPrice`, `open` being a Lean keyword). -/
structure KLinePoint where
  date : String
  openPrice : ℚ
  close : ℚ
  high : ℚ
  low : ℚ
  vol : ℚ
deriving DecidableEq, Repr

/-- Placeholder bar for out-of-range indexing; every use below indexes
within bounds, mirroring the in-bounds array accesses of the source. -/
def dummyK : KLinePoint := ⟨"", 0, 0, 0, 0, 0⟩

/-- Embeds `MinutePoint`: `\x7bp, v, t\x7d`. -/
structure MinutePoint where
  p : ℚ
  v : ℚ
  t : String
deriving DecidableEq, Repr

/-- One iteration of the RSI gain/loss loop shared by both variants:
`change = data[i].close - (data[i-1]?.close || data[i].open)`; a positive
change is added to the gains, otherwise `Math.abs(change)` to the losses.
The JS `||` falls back to the bar's open when the prior close is `0`. -/
def rsiStep (data : List KLinePoint) (gl : ℚ × ℚ) (i : ℕ) : ℚ × ℚ :=
  let prev := (data.getD (i - 1) dummyK).close
  let refPrice := if prev = 0 then (data.getD i dummyK).openPrice else prev
  let change := (data.getD i dummyK).close - refPrice
  if 0 < change then (gl.1 + change, gl.2) else (gl.1, gl.2 + |change|)

/-- The accumulated `(gains, losses)` of the loop
`for (let i = start; i < data.length; i++)`. -/
def rsiGainsLosses (data : List KLinePoint) (start : ℕ) : ℚ × ℚ :=
  ((List.range data.length).drop start).foldl (rsiStep data) (0, 0)

/-- The common tail of both `calculateRSI` variants, parameterised by the
window start index: `50` when `data.length <= period`; `100` when the
summed losses are zero; otherwise `100 - 100/(1 + gains/losses)`. -/
def rsiFrom (data : List KLinePoint) (period : ℕ) (start : ℕ) : ℚ :=
  if data.length ≤ period then 50
  else
    let gl := rsiGainsLosses data start
    if gl.2 = 0 then 100 else 100 - 100 / (1 + gl.1 / gl.2)

namespace V12

/-- Embeds `TechIndicators.calculateRSI` of part_000 (lines 94-104): the loop
runs from `Math.max(1, data.length - period)`. -/
def calculateRSI (data : List KLinePoint) (period : ℕ) : ℚ :=
  rsiFrom data period (max 1 (data.length - period))

end V12

namespace V13

/-- Embeds `TechIndicators.calculateRSI` of App.tsx (lines 158-172): the loop
runs from `Math.max(1, data.length - period * 5)`. -/
def calculateRSI (data : List KLinePoint) (period : ℕ) : ℚ :=
  rsiFrom data period (max 1 (data.length - period * 5))

/-- The true range `trs[i]` of `calculateChandelierExit`: `high - low` for the
first bar, otherwise `Math.max(h-l, Math.abs(h-c), Math.abs(l-c))` against
the prior close. -/
def trueRange (data : List KLinePoint) (i : ℕ) : ℚ :=
  if i = 0 then (data.getD 0 dummyK).high - (data.getD 0 dummyK).low
  else
    let h := (data.getD i dummyK).high
    let l := (data.getD i dummyK).low
    let c := (data.getD (i - 1) dummyK).close
    max (h - l) (max |h - c| |l - c|)

/-- The rolling `sumTR` of `calculateChandelierExit` at index `i`: for
`i ≥ period - 1` the running sum holds exactly the trailing `period` true
ranges `trs[i-period+1 .. i]`, written here as the sum over `j < period` of
`trs[i-j]`. -/
def sumTRWin (data : List KLinePoint) (i period : ℕ) : ℚ :=
  ((List.range period).map (fun j => trueRange data (i - j))).sum

/-- The `maxHigh` loop of `calculateChandelierExit`: starting from `0`, take
the running maximum of `data[i-j].high` for `j < period`. -/
def maxHighWin (data : List KLinePoint) (i period : ℕ) : ℚ :=
  (List.range period).foldl (fun m j => max m (data.getD (i - j) dummyK).high) 0

/-- Embeds `TechIndicators.calculateChandelierExit` of App.tsx (lines
196-231): all-`null` when the series is shorter than the period, otherwise
`null` before index `period - 1` and
`maxHigh - (sumTR / period) * multiplier` from there on. -/
def calculateChandelierExit (data : List KLinePoint) (period : ℕ) (multiplier : ℚ) :
    List (Option ℚ) :=
  if data.length < period then List.replicate data.length none
  else
    (List.range data.length).map (fun i =>
      if period - 1 ≤ i then
        some (maxHighWin data i period - sumTRWin data i period / period * multiplier)
      else none)

end V13

namespace V12

/-- The day-session deviation-band block of the report useMemo of part_000
(lines 797-807) as one value. -/
structure T0Bands where
  vwap : ℚ
  band : ℚ
  dayUp : ℚ
  dayDn : ℚ
deriving DecidableEq, Repr

/-- Embeds part_000 lines 797-807: the band center starts as `s.price` and,
when the intraday series is non-empty, becomes
`minute.reduce((acc,cur) => acc + cur.p, 0) / minute.length`; the band is
`max(0.015, amplitude * 0.6)` with `amplitude = (high - low)/open` when
`open > 0` (else `0.02`); the bands are `center * (1 ± band)`. -/
def t0Bands (minute : List MinutePoint) (price openP high low : ℚ) : T0Bands :=
  let vwap :=
    if 0 < minute.length then
      (minute.foldl (fun acc cur => acc + cur.p) 0) / (minute.length : ℚ)
    else price
  let amplitude := if 0 < openP then (high - low) / openP else 0.02
  let dynamicBand := max 0.015 (amplitude * 0.6)
  ⟨vwap, dynamicBand, vwap * (1 + dynamicBand), vwap * (1 - dynamicBand)⟩

/-- Embeds the `vwap` useMemo of `IntradayChart` (part_000 lines 231-240):
the genuine session VWAP `Σ p·v / Σ v` with fallback `prevClose` when the
series is empty or carries no volume. -/
def intradayVwap (validData : List MinutePoint) (prevClose : ℚ) : ℚ :=
  if validData.length = 0 then prevClose
  else
    let totalPV := validData.foldl (fun acc d => acc + d.p * d.v) 0
    let totalV := validData.foldl (fun acc d => acc + d.v) 0
    if 0 < totalV then totalPV / totalV else prevClose

end V12

namespace V13

/-- The four-axis metric block of `ForceReport`. -/
structure ForceMetrics where
  vol : ℚ
  price : ℚ
  time : ℚ
  space : ℚ
deriving DecidableEq, Repr

/-- Market phase of the force model. -/
inductive Phase where
  | ACCUMULATION
  | SHAKEOUT
  | LIFTING
  | DISTRIBUTION
  | CHAOS
deriving DecidableEq, Repr

/-- The `advice` enumeration of `ForceReport`. -/
inductive Advice where
  | BUY
  | SELL
  | HOLD
  | WAIT
deriving DecidableEq, Repr

/-- Embeds `ForceReport` of App.tsx. The declared interface has an `advice`
field; the branch bodies of `ForceEngine.run` assign `result.action`, a
property absent from the interface, modelled here as an extra `Option`
field. The presentation strings `phaseLabel`/`phaseDesc` are omitted. -/
structure ForceReport where
  phase : Phase
  confidence : ℚ
  advice : Advice
  action : Option Advice
  metrics : ForceMetrics
deriving DecidableEq, Repr

/-- The fields of `RealStock` read by `ForceEngine.run` (the remaining
fields of the source interface are irrelevant to it and omitted). -/
structure RealStock where
  price : ℚ
  prevClose : ℚ
  changePercent : ℚ
  klineData : List KLinePoint
deriving DecidableEq, Repr

/-- Embeds `ForceEngine.run` of App.tsx (lines 254-328): the default CHAOS
report; below 30 bars return it unchanged; otherwise compute RSI(6), the
chandelier stop (`safePrice`, with the JS `|| 0` falsy fallback), the 5-day
volume ratio and amplitude, and walk the ordered decision chain
Distribution → Lifting → Shakeout → Accumulation. Each branch mutates
`phase`, `confidence`, `metrics` and sets `action` — while the declared
`advice` field keeps its default `WAIT`. -/
def ForceEngine.run (stock : RealStock) : ForceReport :=
  let base : ForceReport := ⟨Phase.CHAOS, 35, Advice.WAIT, none, ⟨40, 50, 30, 50⟩⟩
  if stock.klineData.length < 30 then base
  else
    let rsi := calculateRSI stock.klineData 6
    let exits := calculateChandelierExit stock.klineData 22 3
    let safePrice := (exits.getLast?.join).getD 0
    let recent5 := stock.klineData.drop (stock.klineData.length - 5)
    let avgVol5 : ℚ := (recent5.foldl (fun a b => a + b.vol) 0) / 5
    let prev5 := (stock.klineData.drop (stock.klineData.length - 10)).take 5
    let prevVol5 : ℚ := (prev5.foldl (fun a b => a + b.vol) 0) / 5
    let volRatioK : ℚ := if 0 < prevVol5 then avgVol5 / prevVol5 else 1
    let high5 : ℚ := ((recent5.map (fun k => k.high)).max?).getD 0
    let low5 : ℚ := ((recent5.map (fun k => k.low)).min?).getD 0
    let amp5 : ℚ := if 0 < low5 then (high5 - low5) / low5 else 0
    if (¬ safePrice ≤ stock.price ∧ 35 < rsi) ∨
        (stock.changePercent < 2 ∧ (2.2 : ℚ) < volRatioK ∧ stock.prevClose * (1.1 : ℚ) < stock.price) then
      { base with phase := Phase.DISTRIBUTION, confidence := 90,
                  action := some Advice.SELL, metrics := ⟨90, 10, 20, 10⟩ }
    else if safePrice ≤ stock.price ∧ 3.0 < stock.changePercent ∧ 1.5 < volRatioK then
      { base with phase := Phase.LIFTING, confidence := 88,
                  action := some Advice.BUY, metrics := ⟨90, 95, 60, 80⟩ }
    else if safePrice ≤ stock.price ∧ stock.changePercent < -1.5 ∧
        -5.0 < stock.changePercent ∧ volRatioK < 0.8 ∧ 38 < rsi then
      { base with phase := Phase.SHAKEOUT, confidence := 78,
                  action := some Advice.HOLD, metrics := ⟨25, 60, 80, 65⟩ }
    else if safePrice ≤ stock.price ∧ amp5 < 0.05 ∧ 1.1 < volRatioK ∧ volRatioK < 1.8 then
      { base with phase := Phase.ACCUMULATION, confidence := 70,
                  action := some Advice.HOLD, metrics := ⟨60, 55, 90, 85⟩ }
    else base

end V13

/-! ## Specification-side measures and concrete fixtures -/

/-- Two intraday points with unequal volumes: the simple price mean is 15,
the volume-weighted mean is 17.5. -/
def mEx : List MinutePoint := [⟨10, 1, ""⟩, ⟨20, 3, ""⟩]

/-- A flat bar used to build a 30-day series. -/
def kBar10 : KLinePoint := ⟨"", 10, 10, 10, 10, 1⟩

/-- Thirty identical flat bars. -/
def flatSeries : List KLinePoint := List.replicate 30 kBar10

/-- A stock 50% below its chandelier stop with RSI 100: the Distribution
branch of the force model fires. -/
def distStock : V13.RealStock := ⟨5, 10, 0, flatSeries⟩

/-- A state whose only position has holding 0 but a pending BUY order with
negative share count. -/
def stBad : GlobalSimState := ⟨0, 0, [("X", ⟨0, 0, 0, [], [⟨"o1", "t", 10, -5, Side.BUY⟩]⟩)]⟩

/-- A single bar with negative prices (`high = low = -5`). -/
def kNegBar : KLinePoint := ⟨"", -5, -5, -5, -5, 0⟩

/-- A well-formed position: nonnegative holding and nonnegative share
counts on every resting order. -/
def PosOK (p : SimPosition) : Prop :=
  0 ≤ p.holding ∧ ∀ o ∈ p.pending, 0 ≤ o.shares

/-- A well-formed ledger: every recorded position is well-formed. -/
def WFState (st : GlobalSimState) : Prop :=
  ∀ pr ∈ st.positions, PosOK pr.2

/-- The shares reserved by pending SELL orders (the claim's "reserved SELL
quantity"): at submission they were deducted from the holding, so they are
no longer counted in `holding`. -/
def pendingSellShares (pending : List PendingOrder) : ℚ :=
  pending.foldl (fun acc o => if o.type = Side.SELL then acc + o.shares else acc) 0

/-- A position's contribution to total equity valued at cost, counting the
reservations: held shares at average cost, cash reserved by pending BUY
orders, and shares reserved by pending SELL orders at average cost. -/
def positionEquityAtCost (p : SimPosition) : ℚ :=
  p.holding * p.avgCost + pendingBuyReserved p.pending +
    pendingSellShares p.pending * p.avgCost

/-- Total equity of the ledger valued at cost (the claim's "cash plus
holdings valued at cost", reservations included). -/
def equityAtCost (st : GlobalSimState) : ℚ :=
  st.cash + (st.positions.map (fun pr => positionEquityAtCost pr.2)).sum

/-- The concrete position of the C10 witness: 10 shares held at cost 5,
one pending BUY (2 shares at 7) and one pending SELL (3 reserved shares). -/
def posC10 : SimPosition :=
  ⟨10, 5, 0, [], [⟨"b", "t", 7, 2, Side.BUY⟩, ⟨"s", "t", 9, 3, Side.SELL⟩]⟩

/-! ## Shared helper lemmas -/

/-- An invariant preserved by every step of a fold holds of the fold. -/
lemma foldl_invariant {α β : Type} (P : α → Prop) (Q : β → Prop) (f : α → β → α)
    (step : ∀ a b, P a → Q b → P (f a b)) (l : List β) :
    ∀ a : α, (∀ b ∈ l, Q b) → P a → P (l.foldl f a) := by
  induction l with
  | nil => intro a _ ha; simpa using ha
  | cons b tl ih =>
    intro a hl ha
    simpa using ih (f a b) (fun x hx => hl x (List.mem_cons_of_mem b hx))
      (step a b ha (hl b (List.mem_cons_self b tl)))

/-- Folding `+ cur.p` over minute points sums the prices. -/
lemma foldl_add_prices (minute : List MinutePoint) :
    ∀ a : ℚ, minute.foldl (fun acc cur => acc + cur.p) a = a + (minute.map (fun d => d.p)).sum := by
  induction minute with
  | nil => intro a; simp
  | cons x xs ih => intro a; simp [ih, add_assoc]

/-- A fold whose steps do nothing on the elements of the list is the
identity. -/
lemma foldl_fixed {α β : Type} (f : α → β → α) (l : List β)
    (hf : ∀ a : α, ∀ b ∈ l, f a b = a) : ∀ a : α, l.foldl f a = a := by
  induction l with
  | nil => intro a; simp
  | cons b tl ih =>
    intro a
    rw [List.foldl_cons, hf a b (List.mem_cons_self b tl)]
    exact ih (fun x y hy => hf x y (List.mem_cons_of_mem b hy)) a

/-- Starting a running-max fold from its constant value leaves it there. -/
lemma foldl_max_from_const {c : ℚ} (g : ℕ → ℚ) :
    ∀ l : List ℕ, (∀ j ∈ l, g j = c) → l.foldl (fun m j => max m (g j)) c = c := by
  intro l
  induction l with
  | nil => intro _; rfl
  | cons b tl ih =>
    intro hg
    rw [List.foldl_cons, hg b (List.mem_cons_self b tl), max_self]
    exact ih (fun x hx => hg x (List.mem_cons_of_mem b hx))

/-- A running-max fold over indices whose values are all the same
nonnegative constant returns that constant. -/
lemma foldl_max_const {c : ℚ} (g : ℕ → ℚ) (l : List ℕ)
    (hg : ∀ j ∈ l, g j = c) (hc : 0 ≤ c) (hne : l ≠ []) :
    l.foldl (fun m j => max m (g j)) 0 = c := by
  cases l with
  | nil => exact absurd rfl hne
  | cons b tl =>
    rw [List.foldl_cons, hg b (List.mem_cons_self b tl), max_eq_right hc]
    exact foldl_max_from_const g tl (fun x hx => hg x (List.mem_cons_of_mem b hx))

/-- Elements of a replicated list read through `getD` at an in-range index. -/
lemma getD_replicate_of_lt {α : Type} {c d : α} :
    ∀ {n i : ℕ}, i < n → (List.replicate n c).getD i d = c := by
  intro n
  induction n with
  | zero => intro i h; omega
  | succ m ih =>
    intro i h
    cases i with
    | zero => rfl
    | succ k => exact ih (by omega)

/-! ## C4 — resetAccount vs. the current initialCapital -/

/-- C4 counterexample: change the initial capital to 500000, then reset; the
cash after the reset is the hardcoded 1000000, not the pre-reset
initialCapital 500000. -/
theorem c4_reset_counterexample :
    (updateCapital ⟨1000000, 1000000, []⟩ 500000).initialCapital = 500000 ∧
    (resetAccount (updateCapital ⟨1000000, 1000000, []⟩ 500000)).cash = 1000000 ∧
    ((1000000 : ℚ) ≠ 500000) := by
  refine ⟨by decide, by decide, by decide⟩

/-- C4 (amended): `resetAccount` clears all positions and sets both `cash`
and `initialCapital` to the hardcoded default 1000000, regardless of the
current `initialCapital`. -/
theorem c4_resetAccount_amended (st : GlobalSimState) :
    resetAccount st = ⟨1000000, 1000000, []⟩ := rfl

/-! ## C5 — the T0 band center is not the session VWAP -/

/-- C5 counterexample: the deviation-band center computed by the report
useMemo is the plain price mean 15 and differs from the session VWAP 35/2
computed by the IntradayChart from the same points. -/
theorem c5_center_counterexample :
    (V12.t0Bands mEx 15 10 20 10).vwap = 15 ∧
    V12.intradayVwap mEx 10 = 35 / 2 ∧
    (V12.t0Bands mEx 15 10 20 10).vwap ≠ V12.intradayVwap mEx 10 := by
  refine ⟨by norm_num [V12.t0Bands, mEx], by norm_num [V12.intradayVwap, mEx],
    by norm_num [V12.t0Bands, V12.intradayVwap, mEx]⟩

/-- C5 (amended): the day-session deviation-band center is the arithmetic
mean of the intraday prices — volume is ignored — falling back to the
current quote price (not `prevClose`) when the intraday series is empty;
the upper and lower bands equal `center * (1 ± band)`. -/
theorem c5_t0Bands_amended (minute : List MinutePoint) (price openP high low : ℚ) :
    (minute ≠ [] →
      (V12.t0Bands minute price openP high low).vwap =
        (minute.map (fun d => d.p)).sum / (minute.length : ℚ)) ∧
    (minute = [] → (V12.t0Bands minute price openP high low).vwap = price) ∧
    (V12.t0Bands minute price openP high low).dayUp =
      (V12.t0Bands minute price openP high low).vwap *
        (1 + (V12.t0Bands minute price openP high low).band) ∧
    (V12.t0Bands minute price openP high low).dayDn =
      (V12.t0Bands minute price openP high low).vwap *
        (1 - (V12.t0Bands minute price openP high low).band) := by
  refine ⟨?_, ?_, rfl, rfl⟩
  · intro hne
    have hlen : 0 < minute.length := List.length_pos.mpr hne
    simp [V12.t0Bands, hlen, foldl_add_prices]
  · intro he
    subst he
    simp [V12.t0Bands]

/-- C5 amended witness at the concrete two-point series. -/
theorem c5_t0Bands_amended_witness :
    (V12.t0Bands mEx 15 10 20 10).vwap = (mEx.map (fun d => d.p)).sum / (mEx.length : ℚ) :=
  (c5_t0Bands_amended mEx 15 10 20 10).1 (by simp [mEx])

/-! ## C6 — the force model never updates the declared advice field -/

lemma flatSeries_getD {i : ℕ} (h : i < 30) : flatSeries.getD i dummyK = kBar10 :=
  getD_replicate_of_lt h

lemma flatSeries_getElem {i : ℕ} (h : i < 30) : flatSeries[i]?.getD dummyK = kBar10 := by
  rw [← List.getD_eq_getElem?_getD]
  exact flatSeries_getD h

lemma flatSeries_length : flatSeries.length = 30 := by
  simp [flatSeries]

lemma trueRange_flat {i : ℕ} (h : i < 30) : V13.trueRange flatSeries i = 0 := by
  rcases Nat.eq_zero_or_pos i with h0 | hpos
  · subst h0
    simp [V13.trueRange, flatSeries_getElem, kBar10]
  · have h1 : i - 1 < 30 := by omega
    have hne : i ≠ 0 := by omega
    simp [V13.trueRange, hne, flatSeries_getElem h, flatSeries_getElem h1, kBar10]

lemma sumTRWin_flat : V13.sumTRWin flatSeries 29 22 = 0 := by
  apply List.sum_eq_zero
  intro x hx
  simp only [List.mem_map, List.mem_range] at hx
  obtain ⟨j, hj, rfl⟩ := hx
  exact trueRange_flat (by omega)

lemma maxHighWin_flat : V13.maxHighWin flatSeries 29 22 = 10 := by
  unfold V13.maxHighWin
  refine foldl_max_const _ _ (fun j hj => ?_) (by norm_num) (by simp)
  rw [List.getD_eq_getElem?_getD, flatSeries_getElem (by simp at hj; omega)]
  rfl

lemma chandelier_flat_last :
    (V13.calculateChandelierExit flatSeries 22 3).getLast? = some (some 10) := by
  unfold V13.calculateChandelierExit
  rw [if_neg (by simp [flatSeries_length])]
  rw [flatSeries_length, show (30 : ℕ) = 29 + 1 from rfl, List.range_succ,
    List.map_append]
  simp only [List.map_cons, List.map_nil, List.getLast?_concat]
  rw [if_pos (by omega)]
  rw [maxHighWin_flat, sumTRWin_flat]
  norm_num

lemma rsiStep_flat (gl : ℚ × ℚ) {i : ℕ} (h : i < 30) : rsiStep flatSeries gl i = gl := by
  have h1 : i - 1 < 30 := by omega
  simp [rsiStep, flatSeries_getElem h, flatSeries_getElem h1, kBar10]

lemma rsiGainsLosses_flat (start : ℕ) : rsiGainsLosses flatSeries start = (0, 0) := by
  unfold rsiGainsLosses
  refine foldl_fixed _ _ (fun gl i hi => ?_) (0, 0)
  have : i ∈ List.range flatSeries.length := List.mem_of_mem_drop hi
  rw [flatSeries_length] at this
  exact rsiStep_flat gl (List.mem_range.mp this)

lemma rsi_flat : V13.calculateRSI flatSeries 6 = 100 := by
  unfold V13.calculateRSI rsiFrom
  rw [if_neg (by rw [flatSeries_length]; omega)]
  simp [rsiGainsLosses_flat]

lemma forceRun_distStock :
    V13.ForceEngine.run distStock =
      ⟨V13.Phase.DISTRIBUTION, 90, V13.Advice.WAIT, some V13.Advice.SELL, ⟨90, 10, 20, 10⟩⟩ := by
  unfold V13.ForceEngine.run
  rw [show distStock.klineData = flatSeries from rfl, flatSeries_length]
  rw [if_neg (by omega)]
  simp only [chandelier_flat_last, rsi_flat]
  norm_num [distStock, Option.join]

/-- C6: on a stock in the Distribution branch the force engine reports
phase DISTRIBUTION with confidence 90, yet the declared `advice` field
still carries the default `WAIT` (the branch assigned the undeclared
`action` property instead), so the report's advice is not Sell. -/
theorem c6_advice_bug :
    (V13.ForceEngine.run distStock).phase = V13.Phase.DISTRIBUTION ∧
    (V13.ForceEngine.run distStock).confidence = 90 ∧
    (V13.ForceEngine.run distStock).advice = V13.Advice.WAIT ∧
    (V13.ForceEngine.run distStock).action = some V13.Advice.SELL ∧
    (V13.ForceEngine.run distStock).advice ≠ V13.Advice.SELL := by
  rw [forceRun_distStock]
  refine ⟨rfl, rfl, rfl, rfl, by simp⟩

/-! ## C7 — counterexample to the literal invariant claim -/

/-- C7 counterexample: `stBad` satisfies the claim's hypothesis (every
holding is nonnegative), yet one price tick fills the negative-share BUY
order and drives the holding to -5. -/
theorem c7_counterexample :
    (∀ pr ∈ stBad.positions, 0 ≤ pr.2.holding) ∧
    holdingOf (matchTick stBad ("X") 9 ("t2")) ("X") = -5 ∧
    ¬ (0 : ℚ) ≤ -5 := by
  refine ⟨by simp [stBad], ?_, by norm_num⟩
  norm_num [stBad, holdingOf, matchTick, lookupPos, stepOrder, setPos, tradeOf,
    emptyPosition, List.find?]

/-! ## C1 — per-order fill behaviour of the matching sweep -/

/-- C1: for any accumulated ledger values (`matchTick` folds `stepOrder`
over the resting orders in insertion order), a BUY order fills iff the tick
price is ≤ its limit; the fill sets the average cost to
`(holding*avgCost + limitPrice*qty)/(holding+qty)`, adds the quantity to
the holding, leaves cash untouched, appends exactly one trade and does not
keep the order; a SELL order fills iff the tick price is ≥ its limit; the
fill adds `limitPrice*qty` to cash and `(limitPrice-avgCost)*qty` to the
realized P&L, leaves the average cost and holding untouched, appends
exactly one trade and does not keep the order; an unfilled order changes
nothing except being kept in the remaining list. -/
theorem c1_stepOrder_spec (p : ℚ) (t : String) (acc : MatchAcc) (o : PendingOrder) :
    (o.type = Side.BUY → p ≤ o.price →
      (stepOrder p t acc o).holding = acc.holding + o.shares ∧
      (0 ≤ acc.holding → 0 < o.shares →
        (stepOrder p t acc o).avgCost =
          (acc.holding * acc.avgCost + o.price * o.shares) / (acc.holding + o.shares)) ∧
      (stepOrder p t acc o).cash = acc.cash ∧
      (stepOrder p t acc o).realizedPnl = acc.realizedPnl ∧
      (stepOrder p t acc o).trades = acc.trades ++ [tradeOf o t] ∧
      (stepOrder p t acc o).remaining = acc.remaining) ∧
    (o.type = Side.BUY → o.price < p →
      stepOrder p t acc o = { acc with remaining := acc.remaining ++ [o] }) ∧
    (o.type = Side.SELL → o.price ≤ p →
      (stepOrder p t acc o).cash = acc.cash + o.price * o.shares ∧
      (stepOrder p t acc o).realizedPnl = acc.realizedPnl + (o.price - acc.avgCost) * o.shares ∧
      (stepOrder p t acc o).avgCost = acc.avgCost ∧
      (stepOrder p t acc o).holding = acc.holding ∧
      (stepOrder p t acc o).trades = acc.trades ++ [tradeOf o t] ∧
      (stepOrder p t acc o).remaining = acc.remaining) ∧
    (o.type = Side.SELL → p < o.price →
      stepOrder p t acc o = { acc with remaining := acc.remaining ++ [o] }) := by
  refine ⟨?_, ?_, ?_, ?_⟩
  · intro hside hfill
    have hcond : o.type = Side.BUY ∧ p ≤ o.price := ⟨hside, hfill⟩
    refine ⟨?_, ?_, ?_, ?_, ?_, ?_⟩ <;>
      · simp only [stepOrder, if_pos hcond]
        try intro hh hs
        try rw [if_pos (by positivity)]
  · intro hside hnofill
    have h1 : ¬ (o.type = Side.BUY ∧ p ≤ o.price) := by
      rintro ⟨-, hle⟩; exact absurd hnofill (not_lt.mpr hle)
    have h2 : ¬ (o.type = Side.SELL ∧ o.price ≤ p) := by
      rintro ⟨hs, -⟩; rw [hside] at hs; exact Side.noConfusion hs
    simp only [stepOrder, if_neg h1, if_neg h2]
  · intro hside hfill
    have h1 : ¬ (o.type = Side.BUY ∧ p ≤ o.price) := by
      rintro ⟨hs, -⟩; rw [hside] at hs; exact Side.noConfusion hs
    have h2 : o.type = Side.SELL ∧ o.price ≤ p := ⟨hside, hfill⟩
    refine ⟨?_, ?_, ?_, ?_, ?_, ?_⟩ <;>
      simp only [stepOrder, if_neg h1, if_pos h2]
  · intro hside hnofill
    have h1 : ¬ (o.type = Side.BUY ∧ p ≤ o.price) := by
      rintro ⟨hs, -⟩; rw [hside] at hs; exact Side.noConfusion hs
    have h2 : ¬ (o.type = Side.SELL ∧ o.price ≤ p) := by
      rintro ⟨-, hle⟩; exact absurd hnofill (not_lt.mpr hle)
    simp only [stepOrder, if_neg h1, if_neg h2]

/-- C1 witness: the spec scenario — a resting BUY of 100 shares at limit 50
against a tick at 49, starting from an empty position. -/
theorem c1_stepOrder_spec_witness :
    (stepOrder 49 ("t2") ⟨95000, 0, 0, 0, [], [], false⟩ ⟨"o1", "t1", 50, 100, Side.BUY⟩).holding =
        0 + 100 ∧
    (stepOrder 49 ("t2") ⟨95000, 0, 0, 0, [], [], false⟩ ⟨"o1", "t1", 50, 100, Side.BUY⟩).avgCost =
        (0 * 0 + 50 * 100) / (0 + 100) ∧
    (stepOrder 49 ("t2") ⟨95000, 0, 0, 0, [], [], false⟩ ⟨"o1", "t1", 50, 100, Side.BUY⟩).cash =
        95000 := by
  have h := c1_stepOrder_spec 49 ("t2") ⟨95000, 0, 0, 0, [], [], false⟩ ⟨"o1", "t1", 50, 100, Side.BUY⟩
  obtain ⟨hbuy, -, -, -⟩ := h
  obtain ⟨hh, ha, hc, -⟩ := hbuy rfl (by norm_num)
  exact ⟨hh, ha (le_refl 0) (by norm_num), hc⟩

/-! ## C2 — order submission: validation, reservation, no-change on failure -/

lemma lookupPos_setPos_self (ps : List (String × SimPosition)) (code : String)
    (pos : SimPosition) : lookupPos (setPos ps code pos) code = some pos := by
  simp [lookupPos, setPos, List.find?]

/-- C2: with a positive limit price and quantity, a BUY submission succeeds
iff `cash ≥ price*vol` — on success exactly that notional leaves the cash
and the order is appended to the symbol's pending list (everything else in
the position untouched) — and a SELL submission succeeds iff
`holding ≥ vol` — on success the holding drops by `vol`, the cash is
untouched and the order is appended; any failed check, including a
non-positive price or quantity, returns the ledger state unchanged. -/
theorem c2_handleTradeAction_spec (st : GlobalSimState) (code : String) (side : Side)
    (price vol : ℚ) (oid t : String) :
    (price ≤ 0 ∨ vol ≤ 0 → handleTradeAction st code side price vol oid t = st) ∧
    (0 < price → 0 < vol →
      (side = Side.BUY →
        (st.cash < price * vol → handleTradeAction st code side price vol oid t = st) ∧
        (price * vol ≤ st.cash →
          (handleTradeAction st code side price vol oid t).cash = st.cash - price * vol ∧
          lookupPos (handleTradeAction st code side price vol oid t).positions code =
            some { (lookupPos st.positions code).getD emptyPosition with
                   pending := ((lookupPos st.positions code).getD emptyPosition).pending ++
                     [⟨oid, t, price, vol, side⟩] })) ∧
      (side = Side.SELL →
        (((lookupPos st.positions code).getD emptyPosition).holding < vol →
          handleTradeAction st code side price vol oid t = st) ∧
        (vol ≤ ((lookupPos st.positions code).getD emptyPosition).holding →
          (handleTradeAction st code side price vol oid t).cash = st.cash ∧
          lookupPos (handleTradeAction st code side price vol oid t).positions code =
            some { (lookupPos st.positions code).getD emptyPosition with
                   holding := ((lookupPos st.positions code).getD emptyPosition).holding - vol,
                   pending := ((lookupPos st.positions code).getD emptyPosition).pending ++
                     [⟨oid, t, price, vol, side⟩] }))) := by
  constructor
  · intro hbad
    simp only [handleTradeAction, if_pos hbad]
  · intro hp hv
    have hok : ¬ (price ≤ 0 ∨ vol ≤ 0) := by
      push_neg
      exact ⟨hp, hv⟩
    constructor
    · rintro rfl
      constructor
      · intro hpoor
        simp only [handleTradeAction, if_neg hok, if_pos hpoor]
      · intro hrich
        have hnl : ¬ st.cash < price * vol := not_lt.mpr hrich
        simp only [handleTradeAction, if_neg hok, if_neg hnl]
        exact ⟨trivial, lookupPos_setPos_self _ _ _⟩
    · rintro rfl
      constructor
      · intro hpoor
        simp only [handleTradeAction, if_neg hok, if_pos hpoor]
      · intro hrich
        have hnl : ¬ ((lookupPos st.positions code).getD emptyPosition).holding < vol :=
          not_lt.mpr hrich
        simp only [handleTradeAction, if_neg hok, if_neg hnl]
        exact ⟨trivial, lookupPos_setPos_self _ _ _⟩

/-- C2 witness: the spec scenario — submitting a BUY of 100 shares at 50
from 100000 cash reserves 5000 and leaves the order resting. -/
theorem c2_handleTradeAction_spec_witness :
    (handleTradeAction ⟨100000, 100000, []⟩ ("AAA") Side.BUY 50 100 ("o1") ("t1")).cash =
        100000 - 50 * 100 ∧
    lookupPos (handleTradeAction ⟨100000, 100000, []⟩ ("AAA") Side.BUY 50 100
        ("o1") ("t1")).positions ("AAA") =
      some { emptyPosition with pending := [⟨"o1", "t1", 50, 100, Side.BUY⟩] } := by
  have h := ((c2_handleTradeAction_spec ⟨100000, 100000, []⟩ ("AAA") Side.BUY 50 100
      ("o1") ("t1")).2 (by norm_num) (by norm_num)).1 rfl
  have h2 := h.2 (by norm_num [lookupPos])
  refine ⟨h2.1, ?_⟩
  rw [h2.2]
  simp [lookupPos, emptyPosition]

/-! ## C3 — cancellation exactly inverts submission -/

lemma cancelOrder_not_found (st : GlobalSimState) (code oid : String)
    (h : ∀ acct, lookupPos st.positions code = some acct →
      acct.pending.find? (fun o => o.id == oid) = none) :
    cancelOrder st code oid = st := by
  unfold cancelOrder
  cases hlk : lookupPos st.positions code with
  | none => rfl
  | some acct => simp only [h acct hlk]

/-- C3: submitting an order with a fresh id and immediately cancelling it
restores both the cash and the symbol's holding to their values before the
submission — a BUY cancellation refunds `price*vol` to cash, a SELL
cancellation restores `vol` shares (when the submission is rejected, both
operations leave the state untouched and the statement holds trivially). -/
theorem c3_submit_cancel_inverse (st : GlobalSimState) (code : String) (side : Side)
    (price vol : ℚ) (oid t : String)
    (hfresh : ∀ o ∈ ((lookupPos st.positions code).getD emptyPosition).pending, o.id ≠ oid) :
    (cancelOrder (handleTradeAction st code side price vol oid t) code oid).cash = st.cash ∧
    holdingOf (cancelOrder (handleTradeAction st code side price vol oid t) code oid) code =
      holdingOf st code := by
  have hfind : ((lookupPos st.positions code).getD emptyPosition).pending.find?
      (fun o => o.id == oid) = none := by
    apply List.find?_eq_none.mpr
    intro o ho
    simpa using hfresh o ho
  have hnoopCancel : cancelOrder st code oid = st := by
    apply cancelOrder_not_found
    intro acct hlk
    rw [hlk] at hfind
    simpa using hfind
  by_cases hval : price ≤ 0 ∨ vol ≤ 0
  · rw [show handleTradeAction st code side price vol oid t = st from by
      simp only [handleTradeAction, if_pos hval], hnoopCancel]
    exact ⟨rfl, rfl⟩
  · cases side with
    | BUY =>
      by_cases hpoor : st.cash < price * vol
      · rw [show handleTradeAction st code Side.BUY price vol oid t = st from by
          simp only [handleTradeAction, if_neg hval, if_pos hpoor], hnoopCancel]
        exact ⟨rfl, rfl⟩
      · have hsub : handleTradeAction st code Side.BUY price vol oid t =
            { st with
              cash := st.cash - price * vol,
              positions := setPos st.positions code
                { (lookupPos st.positions code).getD emptyPosition with
                  pending := ((lookupPos st.positions code).getD emptyPosition).pending ++
                    [⟨oid, t, price, vol, Side.BUY⟩] } } := by
          simp only [handleTradeAction, if_neg hval, if_neg hpoor]
        rw [hsub]
        constructor
        · simp [cancelOrder, lookupPos_setPos_self, hfind]
        · simp [holdingOf, cancelOrder, lookupPos_setPos_self, hfind]
    | SELL =>
      by_cases hpoor : ((lookupPos st.positions code).getD emptyPosition).holding < vol
      · rw [show handleTradeAction st code Side.SELL price vol oid t = st from by
          simp only [handleTradeAction, if_neg hval, if_pos hpoor], hnoopCancel]
        exact ⟨rfl, rfl⟩
      · have hsub : handleTradeAction st code Side.SELL price vol oid t =
            { st with
              positions := setPos st.positions code
                { (lookupPos st.positions code).getD emptyPosition with
                  holding := ((lookupPos st.positions code).getD emptyPosition).holding - vol,
                  pending := ((lookupPos st.positions code).getD emptyPosition).pending ++
                    [⟨oid, t, price, vol, Side.SELL⟩] } } := by
          simp only [handleTradeAction, if_neg hval, if_neg hpoor]
        rw [hsub]
        constructor
        · simp [cancelOrder, lookupPos_setPos_self, hfind]
        · simp [holdingOf, cancelOrder, lookupPos_setPos_self, hfind]

/-- C3 witness: submit a BUY of 100 shares at 50 from 100000 cash and cancel
it at once; cash and holding return to their initial values. -/
theorem c3_submit_cancel_inverse_witness :
    (cancelOrder (handleTradeAction ⟨100000, 100000, []⟩ ("AAA") Side.BUY 50 100
        ("o1") ("t1")) ("AAA") ("o1")).cash = 100000 ∧
    holdingOf (cancelOrder (handleTradeAction ⟨100000, 100000, []⟩ ("AAA") Side.BUY 50 100
        ("o1") ("t1")) ("AAA") ("o1")) ("AAA") =
      holdingOf ⟨100000, 100000, []⟩ ("AAA") := by
  have h := c3_submit_cancel_inverse ⟨100000, 100000, []⟩ ("AAA") Side.BUY 50 100
    ("o1") ("t1") (by simp [lookupPos, emptyPosition])
  exact ⟨h.1, h.2⟩

/-! ## C8 — RSI bounds and fallbacks, both variants -/

lemma rsiPair_nonneg (chg : ℚ) (gl : ℚ × ℚ) (h1 : 0 ≤ gl.1) (h2 : 0 ≤ gl.2) :
    0 ≤ (if 0 < chg then (gl.1 + chg, gl.2) else (gl.1, gl.2 + |chg|)).1 ∧
    0 ≤ (if 0 < chg then (gl.1 + chg, gl.2) else (gl.1, gl.2 + |chg|)).2 := by
  split
  next hc => exact ⟨add_nonneg h1 hc.le, h2⟩
  next => exact ⟨h1, add_nonneg h2 (abs_nonneg _)⟩

lemma rsiStep_nonneg (data : List KLinePoint) (gl : ℚ × ℚ) (i : ℕ)
    (h : 0 ≤ gl.1 ∧ 0 ≤ gl.2) : 0 ≤ (rsiStep data gl i).1 ∧ 0 ≤ (rsiStep data gl i).2 := by
  unfold rsiStep
  dsimp only
  exact rsiPair_nonneg _ gl h.1 h.2

lemma rsiGainsLosses_nonneg (data : List KLinePoint) (start : ℕ) :
    0 ≤ (rsiGainsLosses data start).1 ∧ 0 ≤ (rsiGainsLosses data start).2 := by
  unfold rsiGainsLosses
  exact foldl_invariant (fun gl => 0 ≤ gl.1 ∧ 0 ≤ gl.2) (fun _ => True) (rsiStep data)
    (fun gl i hgl _ => rsiStep_nonneg data gl i hgl) _ (0, 0)
    (fun _ _ => trivial) ⟨le_refl 0, le_refl 0⟩

lemma rsiFrom_spec (data : List KLinePoint) (period start : ℕ) :
    0 ≤ rsiFrom data period start ∧ rsiFrom data period start ≤ 100 ∧
    (data.length ≤ period → rsiFrom data period start = 50) ∧
    (period < data.length → (rsiGainsLosses data start).2 = 0 →
      rsiFrom data period start = 100) := by
  unfold rsiFrom
  by_cases hlen : data.length ≤ period
  · rw [if_pos hlen]
    refine ⟨by norm_num, by norm_num, fun _ => rfl, fun hlt _ => absurd hlen (not_le.mpr hlt)⟩
  · simp only [if_neg hlen]
    by_cases hl0 : (rsiGainsLosses data start).2 = 0
    · rw [if_pos hl0]
      refine ⟨by norm_num, by norm_num, fun h => absurd h hlen, fun _ _ => rfl⟩
    · rw [if_neg hl0]
      have hg := (rsiGainsLosses_nonneg data start).1
      have hl := (rsiGainsLosses_nonneg data start).2
      have hlpos : 0 < (rsiGainsLosses data start).2 := lt_of_le_of_ne hl (Ne.symm hl0)
      have hr : 0 ≤ (rsiGainsLosses data start).1 / (rsiGainsLosses data start).2 :=
        div_nonneg hg hl
      have hdiv_pos :
          0 < 100 / (1 + (rsiGainsLosses data start).1 / (rsiGainsLosses data start).2) := by
        positivity
      have hdiv_le :
          100 / (1 + (rsiGainsLosses data start).1 / (rsiGainsLosses data start).2) ≤ 100 :=
        div_le_self (by norm_num) (by linarith)
      refine ⟨by linarith, by linarith, fun h => absurd h hlen, fun _ h => absurd h hl0⟩

/-- C8: for every daily series and period, both RSI variants stay in
[0, 100]; they return exactly 50 whenever the series is no longer than the
period; and whenever the series is long enough but the summed losses of
the trailing loop window are zero, they return exactly 100. -/
theorem c8_calculateRSI_spec (data : List KLinePoint) (period : ℕ) :
    (0 ≤ V12.calculateRSI data period ∧ V12.calculateRSI data period ≤ 100 ∧
      (data.length ≤ period → V12.calculateRSI data period = 50) ∧
      (period < data.length →
        (rsiGainsLosses data (max 1 (data.length - period))).2 = 0 →
        V12.calculateRSI data period = 100)) ∧
    (0 ≤ V13.calculateRSI data period ∧ V13.calculateRSI data period ≤ 100 ∧
      (data.length ≤ period → V13.calculateRSI data period = 50) ∧
      (period < data.length →
        (rsiGainsLosses data (max 1 (data.length - period * 5))).2 = 0 →
        V13.calculateRSI data period = 100)) :=
  ⟨rsiFrom_spec data period (max 1 (data.length - period)),
   rsiFrom_spec data period (max 1 (data.length - period * 5))⟩

/-- C8 witness: a one-bar series with period 6 is shorter than the period,
so both variants return the neutral 50. -/
theorem c8_calculateRSI_spec_witness :
    V12.calculateRSI [kBar10] 6 = 50 ∧ V13.calculateRSI [kBar10] 6 = 50 :=
  ⟨(c8_calculateRSI_spec [kBar10] 6).1.2.2.1 (by norm_num),
   (c8_calculateRSI_spec [kBar10] 6).2.2.2.1 (by norm_num)⟩

/-! ## C7 — the amended ledger invariant -/

lemma mem_setPos {ps : List (String × SimPosition)} {code : String} {pos : SimPosition}
    {pr : String × SimPosition} (h : pr ∈ setPos ps code pos) :
    pr = (code, pos) ∨ pr ∈ ps := by
  rcases List.mem_cons.mp h with h2 | h2
  · exact Or.inl h2
  · exact Or.inr (List.mem_of_mem_filter h2)

lemma lookupPos_mem {ps : List (String × SimPosition)} {code : String} {pos : SimPosition}
    (h : lookupPos ps code = some pos) : ∃ pr ∈ ps, pr.2 = pos := by
  unfold lookupPos at h
  cases hf : ps.find? (fun pr => pr.1 == code) with
  | none => rw [hf] at h; exact absurd h (by simp)
  | some pr =>
    rw [hf] at h
    simp only [Option.map_some', Option.some.injEq] at h
    exact ⟨pr, List.mem_of_find?_eq_some hf, h⟩

lemma wf_getD {st : GlobalSimState} (h : WFState st) (code : String) :
    PosOK ((lookupPos st.positions code).getD emptyPosition) := by
  cases hlk : lookupPos st.positions code with
  | none =>
    refine ⟨le_refl 0, fun o ho => ?_⟩
    exact absurd ho (List.not_mem_nil o)
  | some pos =>
    obtain ⟨pr, hmem, hpr⟩ := lookupPos_mem hlk
    rw [Option.getD_some, ← hpr]
    exact h pr hmem

lemma wf_setPos {st : GlobalSimState} (h : WFState st) {code : String} {pos : SimPosition}
    (hp : PosOK pos) (cash capital : ℚ) :
    WFState ⟨cash, capital, setPos st.positions code pos⟩ := by
  intro pr hpr
  rcases mem_setPos hpr with rfl | hmem
  · exact hp
  · exact h pr hmem

lemma wf_handleTradeAction {st : GlobalSimState} (h : WFState st) (code : String)
    (side : Side) (price vol : ℚ) (oid t : String) :
    WFState (handleTradeAction st code side price vol oid t) := by
  unfold handleTradeAction
  by_cases hval : price ≤ 0 ∨ vol ≤ 0
  · rw [if_pos hval]; exact h
  · rw [if_neg hval]
    have hvol : 0 < vol := by
      push_neg at hval
      exact hval.2
    have hacc := wf_getD h code
    cases side with
    | BUY =>
      dsimp only
      by_cases hpoor : st.cash < price * vol
      · rw [if_pos hpoor]; exact h
      · rw [if_neg hpoor]
        refine wf_setPos h ?_ _ _
        refine ⟨hacc.1, fun o ho => ?_⟩
        rcases List.mem_append.mp ho with ho2 | ho2
        · exact hacc.2 o ho2
        · rw [List.mem_singleton.mp ho2]
          exact hvol.le
    | SELL =>
      dsimp only
      by_cases hpoor : ((lookupPos st.positions code).getD emptyPosition).holding < vol
      · rw [if_pos hpoor]; exact h
      · rw [if_neg hpoor]
        refine wf_setPos h ?_ _ _
        refine ⟨by dsimp only; linarith [not_lt.mp hpoor], fun o ho => ?_⟩
        rcases List.mem_append.mp ho with ho2 | ho2
        · exact hacc.2 o ho2
        · rw [List.mem_singleton.mp ho2]
          exact hvol.le

lemma wf_cancelOrder {st : GlobalSimState} (h : WFState st) (code oid : String) :
    WFState (cancelOrder st code oid) := by
  unfold cancelOrder
  cases hlk : lookupPos st.positions code with
  | none => exact h
  | some account =>
    simp only
    cases hf : account.pending.find? (fun o => o.id == oid) with
    | none => exact h
    | some orderToCancel =>
      simp only
      obtain ⟨pr, hmem, hpr⟩ := lookupPos_mem hlk
      have haccOK : PosOK account := by
        rw [← hpr]
        exact h pr hmem
      have hshares : 0 ≤ orderToCancel.shares :=
        haccOK.2 orderToCancel (List.mem_of_find?_eq_some hf)
      have hfilter : ∀ o ∈ account.pending.filter (fun o => !(o.id == oid)),
          0 ≤ o.shares := fun o ho => haccOK.2 o (List.mem_of_mem_filter ho)
      split
      · refine wf_setPos h ?_ _ _
        exact ⟨haccOK.1, hfilter⟩
      · refine wf_setPos h ?_ _ _
        exact ⟨add_nonneg haccOK.1 hshares, hfilter⟩

lemma stepOrder_wf (p : ℚ) (t : String) (acc : MatchAcc) (o : PendingOrder)
    (hacc : 0 ≤ acc.holding ∧ ∀ x ∈ acc.remaining, 0 ≤ x.shares) (ho : 0 ≤ o.shares) :
    0 ≤ (stepOrder p t acc o).holding ∧
    ∀ x ∈ (stepOrder p t acc o).remaining, 0 ≤ x.shares := by
  unfold stepOrder
  by_cases h1 : o.type = Side.BUY ∧ p ≤ o.price
  · rw [if_pos h1]
    exact ⟨add_nonneg hacc.1 ho, hacc.2⟩
  · rw [if_neg h1]
    by_cases h2 : o.type = Side.SELL ∧ o.price ≤ p
    · rw [if_pos h2]
      exact hacc
    · rw [if_neg h2]
      refine ⟨hacc.1, fun x hx => ?_⟩
      rcases List.mem_append.mp hx with hx2 | hx2
      · exact hacc.2 x hx2
      · rw [List.mem_singleton.mp hx2]
        exact ho

lemma wf_matchTick {st : GlobalSimState} (h : WFState st) (code : String)
    (p : ℚ) (t : String) : WFState (matchTick st code p t) := by
  unfold matchTick
  cases hlk : lookupPos st.positions code with
  | none => exact h
  | some account =>
    simp only
    obtain ⟨pr, hmem, hpr⟩ := lookupPos_mem hlk
    have haccOK : PosOK account := by
      rw [← hpr]
      exact h pr hmem
    by_cases hemp : account.pending.isEmpty
    · rw [if_pos hemp]; exact h
    · rw [if_neg hemp]
      have hinit : 0 ≤ (⟨st.cash, account.holding, account.avgCost, account.realizedPnl,
            account.trades, [], false⟩ : MatchAcc).holding ∧
          ∀ x ∈ (⟨st.cash, account.holding, account.avgCost, account.realizedPnl,
            account.trades, [], false⟩ : MatchAcc).remaining, 0 ≤ x.shares :=
        ⟨haccOK.1, fun x hx => absurd hx (List.not_mem_nil x)⟩
      have hfold : 0 ≤ (account.pending.foldl (stepOrder p t)
            ⟨st.cash, account.holding, account.avgCost, account.realizedPnl,
             account.trades, [], false⟩).holding ∧
          ∀ x ∈ (account.pending.foldl (stepOrder p t)
            ⟨st.cash, account.holding, account.avgCost, account.realizedPnl,
             account.trades, [], false⟩).remaining, 0 ≤ x.shares :=
        foldl_invariant
          (fun acc => 0 ≤ acc.holding ∧ ∀ x ∈ acc.remaining, 0 ≤ x.shares)
          (fun o => 0 ≤ o.shares) (stepOrder p t)
          (fun acc o hacc hoq => stepOrder_wf p t acc o hacc hoq)
          account.pending _ haccOK.2 hinit
      split
      · exact h
      · refine wf_setPos h ?_ _ _
        exact ⟨hfold.1, hfold.2⟩

lemma wf_deleteTrade {st : GlobalSimState} (h : WFState st) (code tid : String) :
    WFState (deleteTrade st code tid) := by
  unfold deleteTrade
  cases hlk : lookupPos st.positions code with
  | none => exact h
  | some currentPos =>
    simp only
    obtain ⟨pr, hmem, hpr⟩ := lookupPos_mem hlk
    have haccOK : PosOK currentPos := by
      rw [← hpr]
      exact h pr hmem
    refine wf_setPos h ?_ _ _
    exact ⟨haccOK.1, haccOK.2⟩

lemma wf_resetAccount (st : GlobalSimState) : WFState (resetAccount st) := by
  intro pr hpr
  exact absurd hpr (List.not_mem_nil pr)

lemma wf_clearStock {st : GlobalSimState} (h : WFState st) (code : String) :
    WFState (clearStock st code) := by
  unfold clearStock
  cases hlk : lookupPos st.positions code with
  | none => exact h
  | some currentPos =>
    simp only
    intro pr hpr
    exact h pr (List.mem_of_mem_filter hpr)

lemma wf_updateCapital {st : GlobalSimState} (h : WFState st) (cap : ℚ) :
    WFState (updateCapital st cap) := by
  unfold updateCapital
  split
  · exact h
  · exact h

/-- C7 (amended): from any ledger state in which every position has a
nonnegative holding and every resting order a nonnegative share count,
every operation — submission, cancellation, price-tick matching, trade
deletion, reset, clear-symbol and set-initial-capital — preserves that
property (hence quantityHeld never goes negative), and a SELL submission
is rejected without any state change whenever the held quantity is below
the requested quantity. Without the order-quantity condition the claim
fails, see the counterexample. -/
theorem c7_invariant_amended (st : GlobalSimState) (hwf : WFState st) :
    (∀ code side price vol oid t,
      WFState (handleTradeAction st code side price vol oid t)) ∧
    (∀ code oid, WFState (cancelOrder st code oid)) ∧
    (∀ code p t, WFState (matchTick st code p t)) ∧
    (∀ code tid, WFState (deleteTrade st code tid)) ∧
    WFState (resetAccount st) ∧
    (∀ code, WFState (clearStock st code)) ∧
    (∀ cap, WFState (updateCapital st cap)) ∧
    (∀ code price vol oid t,
      ((lookupPos st.positions code).getD emptyPosition).holding < vol →
      handleTradeAction st code Side.SELL price vol oid t = st) := by
  refine ⟨fun code side price vol oid t => wf_handleTradeAction hwf code side price vol oid t,
    fun code oid => wf_cancelOrder hwf code oid,
    fun code p t => wf_matchTick hwf code p t,
    fun code tid => wf_deleteTrade hwf code tid,
    wf_resetAccount st,
    fun code => wf_clearStock hwf code,
    fun cap => wf_updateCapital hwf cap,
    fun code price vol oid t hpoor => ?_⟩
  unfold handleTradeAction
  by_cases hval : price ≤ 0 ∨ vol ≤ 0
  · rw [if_pos hval]
  · rw [if_neg hval]
    dsimp only
    rw [if_pos hpoor]

/-- C7 amended witness: the empty ledger is well-formed and stays
well-formed under a reset. -/
theorem c7_invariant_amended_witness : WFState (resetAccount ⟨0, 0, []⟩) :=
  (c7_invariant_amended ⟨0, 0, []⟩
    (fun pr hpr => absurd hpr (List.not_mem_nil pr))).2.2.2.2.1

/-! ## C9 helper lemmas: running maxima and true-range positivity -/

lemma le_foldl_max (g : ℕ → ℚ) :
    ∀ (l : List ℕ) (a : ℚ), a ≤ l.foldl (fun m j => max m (g j)) a := by
  intro l
  induction l with
  | nil => intro a; simp
  | cons b tl ih =>
    intro a
    exact le_trans (le_max_left a (g b)) (ih (max a (g b)))

lemma foldl_max_ge_elem (g : ℕ → ℚ) :
    ∀ (l : List ℕ) (x : ℕ), x ∈ l → ∀ a : ℚ, g x ≤ l.foldl (fun m j => max m (g j)) a := by
  intro l
  induction l with
  | nil => intro x hx; exact absurd hx (List.not_mem_nil x)
  | cons b tl ih =>
    intro x hx a
    rcases List.mem_cons.mp hx with rfl | hx2
    · exact le_trans (le_max_right a (g x)) (le_foldl_max g tl _)
    · exact ih x hx2 _

lemma foldl_max_eq_init_or_mem (g : ℕ → ℚ) :
    ∀ (l : List ℕ) (a : ℚ), l.foldl (fun m j => max m (g j)) a = a ∨
      ∃ x ∈ l, l.foldl (fun m j => max m (g j)) a = g x := by
  intro l
  induction l with
  | nil => intro a; left; rfl
  | cons b tl ih =>
    intro a
    rcases ih (max a (g b)) with h | ⟨x, hx, hval⟩
    · rcases le_total a (g b) with hab | hab
      · right
        exact ⟨b, List.mem_cons_self b tl, by rw [List.foldl_cons, h, max_eq_right hab]⟩
      · left
        rw [List.foldl_cons, h, max_eq_left hab]
    · right
      exact ⟨x, List.mem_cons_of_mem b hx, by rw [List.foldl_cons]; exact hval⟩

lemma getD_mem_of_lt {l : List KLinePoint} {i : ℕ} (h : i < l.length) (d : KLinePoint) :
    l.getD i d ∈ l := by
  rw [List.getD_eq_getElem?_getD, List.getElem?_eq_getElem h]
  exact List.getElem_mem h

lemma trueRange_nonneg (data : List KLinePoint) (i : ℕ)
    (hwf : ∀ b ∈ data, b.low ≤ b.high) (hi : i < data.length) :
    0 ≤ V13.trueRange data i := by
  unfold V13.trueRange
  split
  · have hb := hwf _ (getD_mem_of_lt (show 0 < data.length by omega) dummyK)
    linarith
  · have hb := hwf _ (getD_mem_of_lt hi dummyK)
    have h1 : (data.getD i dummyK).high - (data.getD i dummyK).low ≤
        max ((data.getD i dummyK).high - (data.getD i dummyK).low)
          (max |(data.getD i dummyK).high - (data.getD (i - 1) dummyK).close|
            |(data.getD i dummyK).low - (data.getD (i - 1) dummyK).close|) :=
      le_max_left _ _
    linarith

lemma sumTRWin_nonneg (data : List KLinePoint) (i period : ℕ)
    (hwf : ∀ b ∈ data, b.low ≤ b.high) (hi : i < data.length) :
    0 ≤ V13.sumTRWin data i period := by
  apply List.sum_nonneg
  intro x hx
  simp only [List.mem_map, List.mem_range] at hx
  obtain ⟨j, hj, rfl⟩ := hx
  exact trueRange_nonneg data (i - j) hwf (by omega)

lemma maxHighWin_attained (data : List KLinePoint) (i period : ℕ) (hper : 1 ≤ period)
    (hnn : ∀ j < period, 0 ≤ (data.getD (i - j) dummyK).high) :
    ∃ j < period, V13.maxHighWin data i period = (data.getD (i - j) dummyK).high := by
  unfold V13.maxHighWin
  rcases foldl_max_eq_init_or_mem (fun j => (data.getD (i - j) dummyK).high)
      (List.range period) 0 with h | ⟨x, hx, hval⟩
  · refine ⟨0, by omega, ?_⟩
    have hub := foldl_max_ge_elem (fun j => (data.getD (i - j) dummyK).high)
      (List.range period) 0 (List.mem_range.mpr (by omega)) 0
    rw [h] at hub ⊢
    exact (le_antisymm hub (hnn 0 (by omega))).symm
  · exact ⟨x, List.mem_range.mp hx, hval⟩

/-- C9 (amended): for a series whose bars all satisfy `low ≤ high` and
`high ≥ 0`, any period ≥ 1 with period ≤ length, positive multiplier and
index `period-1 ≤ i < length, the chandelier exit at `i` equals
`maxHigh − ATR·multiplier`; that `maxHigh` truly bounds (and is attained
by) the window highs; the exit is ≤ the window maximum high; and equality
holds exactly when the window ATR is zero. Without `high ≥ 0` the claim
fails, see the counterexample. -/
theorem c9_chandelier_amended (data : List KLinePoint) (period : ℕ) (multiplier : ℚ)
    (i : ℕ) (hper : 1 ≤ period) (hmul : 0 < multiplier) (hlen : period ≤ data.length)
    (hi1 : period - 1 ≤ i) (hi2 : i < data.length)
    (hwf : ∀ b ∈ data, b.low ≤ b.high ∧ 0 ≤ b.high) :
    (V13.calculateChandelierExit data period multiplier).getD i none =
      some (V13.maxHighWin data i period -
        V13.sumTRWin data i period / period * multiplier) ∧
    (∀ j < period, (data.getD (i - j) dummyK).high ≤ V13.maxHighWin data i period) ∧
    (∃ j < period, V13.maxHighWin data i period = (data.getD (i - j) dummyK).high) ∧
    V13.maxHighWin data i period - V13.sumTRWin data i period / period * multiplier ≤
      V13.maxHighWin data i period ∧
    (V13.maxHighWin data i period - V13.sumTRWin data i period / period * multiplier =
        V13.maxHighWin data i period ↔ V13.sumTRWin data i period / period = 0) := by
  have hatr : 0 ≤ V13.sumTRWin data i period / (period : ℚ) := by
    apply div_nonneg (sumTRWin_nonneg data i period (fun b hb => (hwf b hb).1) hi2)
    positivity
  refine ⟨?_, ?_, ?_, ?_, ?_⟩
  · unfold V13.calculateChandelierExit
    rw [if_neg (not_lt.mpr hlen)]
    rw [List.getD_eq_getElem?_getD, List.getElem?_map,
      List.getElem?_range hi2]
    simp only [Option.map_some', Option.getD_some]
    rw [if_pos hi1]
  · intro j hj
    exact foldl_max_ge_elem (fun j => (data.getD (i - j) dummyK).high)
      (List.range period) j (List.mem_range.mpr hj) 0
  · exact maxHighWin_attained data i period hper
      (fun j hj => (hwf _ (getD_mem_of_lt (by omega) dummyK)).2)
  · have : 0 ≤ V13.sumTRWin data i period / period * multiplier :=
      mul_nonneg hatr hmul.le
    linarith
  · rw [sub_eq_self, mul_eq_zero]
    constructor
    · rintro (h | h)
      · exact h
      · exact absurd h (ne_of_gt hmul)
    · intro h
      exact Or.inl h

/-- C9 amended witness: the one-bar flat series with period 1 and
multiplier 1 satisfies every hypothesis of the amended theorem. -/
theorem c9_chandelier_amended_witness :
    V13.maxHighWin [kBar10] 0 1 - V13.sumTRWin [kBar10] 0 1 / (1 : ℚ) * 1 ≤
      V13.maxHighWin [kBar10] 0 1 :=
  (c9_chandelier_amended [kBar10] 1 1 0 (by norm_num) (by norm_num) (by simp)
    (by norm_num) (by simp) (by simp [kBar10])).2.2.2.1

/-! ## C9 — counterexample to the unconditional trailing-stop bound -/

/-- C9 counterexample: with `period = 1`, `multiplier = 1` the series
`[kNegBar]` satisfies `high ≥ low` on every bar, its window maximum high at
index 0 is -5, yet the chandelier exit there is 0 (the `maxHigh` scan
starts from 0), and 0 ≤ -5 fails. -/
theorem c9_counterexample :
    (∀ b ∈ [kNegBar], b.low ≤ b.high) ∧
    V13.calculateChandelierExit [kNegBar] 1 1 = [some 0] ∧
    (∀ b ∈ [kNegBar], b.high = -5) ∧
    ¬ (0 : ℚ) ≤ (-5 : ℚ) := by
  refine ⟨by simp [kNegBar], ?_, by simp [kNegBar], by norm_num⟩
  norm_num [V13.calculateChandelierExit, V13.maxHighWin, V13.sumTRWin, V13.trueRange,
    kNegBar, dummyK, List.range_succ]

/-! ## C10 — ClearSymbol discards SELL-side reservations -/

lemma equity_delPos (ps : List (String × SimPosition)) (code : String) (pos : SimPosition)
    (hnd : (ps.map Prod.fst).Nodup) (h : lookupPos ps code = some pos) :
    ((delPos ps code).map (fun pr => positionEquityAtCost pr.2)).sum =
      (ps.map (fun pr => positionEquityAtCost pr.2)).sum - positionEquityAtCost pos := by
  induction ps with
  | nil => exact absurd h (by simp [lookupPos])
  | cons hd tl ih =>
    rw [List.map_cons, List.nodup_cons] at hnd
    by_cases hc : hd.1 = code
    · have hpos : pos = hd.2 := by
        have : lookupPos (hd :: tl) code = some hd.2 := by
          simp [lookupPos, List.find?_cons, hc]
        rw [h] at this
        exact (Option.some.injEq _ _).mp this
      have hkeep : tl.filter (fun pr => !(pr.1 == code)) = tl := by
        apply List.filter_eq_self.mpr
        intro pr hpr
        have hne : pr.1 ≠ code := by
          intro heq
          exact hnd.1 (List.mem_map.mpr ⟨pr, hpr, heq.trans hc.symm⟩)
        simp [hne]
      have hdel : delPos (hd :: tl) code = tl := by
        unfold delPos
        rw [List.filter_cons]
        have hb : (hd.1 == code) = true := by simp [hc]
        rw [hb]
        simpa using hkeep
      rw [hdel, hpos, List.map_cons, List.sum_cons]
      ring
    · have hfind : lookupPos tl code = some pos := by
        unfold lookupPos at h ⊢
        rw [List.find?_cons] at h
        have : (hd.1 == code) = false := by simp [hc]
        rw [this] at h
        exact h
      have hdel : delPos (hd :: tl) code = hd :: delPos tl code := by
        unfold delPos
        rw [List.filter_cons]
        have : (hd.1 == code) = false := by simp [hc]
        rw [this]
        rfl
      rw [hdel, List.map_cons, List.sum_cons, ih hnd.2 hfind, List.map_cons, List.sum_cons]
      ring

/-- C10: clearing a symbol refunds exactly `holding*avgCost` plus the
BUY-side reserved cash — the shares reserved by pending SELL orders are
discarded with no compensation — so the reservation-aware total equity at
cost drops by exactly `(reserved SELL quantity) * avgCost`, a strict
decrease whenever that quantity and the average cost are positive. -/
theorem c10_clearStock_equity (st : GlobalSimState) (code : String) (pos : SimPosition)
    (hlk : lookupPos st.positions code = some pos)
    (hnd : (st.positions.map Prod.fst).Nodup) :
    (clearStock st code).cash =
      st.cash + pos.holding * pos.avgCost + pendingBuyReserved pos.pending ∧
    equityAtCost (clearStock st code) =
      equityAtCost st - pendingSellShares pos.pending * pos.avgCost ∧
    (0 < pendingSellShares pos.pending → 0 < pos.avgCost →
      equityAtCost (clearStock st code) < equityAtCost st) := by
  have hclear : clearStock st code =
      { st with
        cash := st.cash + (pos.holding * pos.avgCost + pendingBuyReserved pos.pending),
        positions := delPos st.positions code } := by
    unfold clearStock
    rw [hlk]
  have h2 : equityAtCost (clearStock st code) =
      equityAtCost st - pendingSellShares pos.pending * pos.avgCost := by
    rw [hclear]
    unfold equityAtCost
    dsimp only
    rw [equity_delPos st.positions code pos hnd hlk]
    unfold positionEquityAtCost
    ring
  refine ⟨by rw [hclear]; ring, h2, fun hs ha => ?_⟩
  rw [h2]
  have : 0 < pendingSellShares pos.pending * pos.avgCost := mul_pos hs ha
  linarith

/-- C10 witness: on the concrete one-position ledger, clearing the symbol
strictly decreases the reservation-aware equity. -/
theorem c10_clearStock_equity_witness :
    equityAtCost (clearStock ⟨100, 100, [(("X"), posC10)]⟩ ("X")) <
      equityAtCost ⟨100, 100, [(("X"), posC10)]⟩ :=
  (c10_clearStock_equity ⟨100, 100, [(("X"), posC10)]⟩ ("X") posC10
    (by simp [lookupPos]) (by simp)).2.2
    (by simp [pendingSellShares, posC10])
    (by norm_num [posC10])

end Wukong
